import Mathlib

/-!
Verification of the result-derivation pipeline of csup_analyzer
(src/csup_analyzer/event/Result.py).

The embedding models:
  * class Result / assign_individual_properties  (per-driver derived metrics),
  * class RaceResultsDataFrame with its pipeline _run_result_calculations:
      __calc_starting_position, __calc_race_position,
      __interpolate_time_until_starting_line_race, __calc_lap_positions,
    and the lap_position_table property.

Modelling conventions, stated once:
  * Python floats are modelled as exact rationals; a NaN/None cell is
    Option.none.
  * pandas sort_values is modelled as a stable sort with na_position last
    (missing keys sort to the end, ties keep the current row order).  The
    stable sort is realised by insertion sort over index-tagged rows, the
    tie-break on the original index making the order canonical.
  * pandas DataFrame rows are a Lean list in the current row order; column
    presence of the derived columns is tracked by flags on a table record
    because __calc_lap_positions raises a KeyError when the columns written
    by the earlier pipeline steps are absent.
  * scipy spline evaluation (pandas interpolate, method spline, order 2) is
    floating-point curve fitting in an external library; the numeric fill
    values are therefore a parameter of the interpolation step.  Everything
    else about that step is modelled exactly: which x-index each row
    receives, that pandas returns the column untouched when nothing is
    missing or nothing is known, that scipy raises unless the known points
    outnumber the spline order, and that the default forward limit
    direction fills a missing value only when a known index precedes it.
-/

namespace CsupAnalyzer

/-- One raw per-driver record from a replay header file, the input boundary
of Result.assign_individual_properties (keys racingTeamId, finishTime,
lapTimes, lapTimePenalties, numLapsLed, metresDriven).  finishTime is null
when the driver did not finish; lapTimes may be a list or null. -/
structure RawResult where
  racingTeamId : ℕ
  finishTime : Option ℚ
  lapTimes : Option (List ℚ)
  lapTimePenalties : List ℚ
  numLapsLed : ℕ
  metresDriven : ℚ
deriving DecidableEq

/-- Result.num_laps_driven: len(lap_times) if lap_times else NaN.
A Python empty list and None are both falsy, so both give NaN. -/
def numLapsDriven (res : RawResult) : Option ℕ :=
  match res.lapTimes with
  | none => none
  | some [] => none
  | some l => some l.length

/-- Result.fastest_lap_time: min(lap_times) if lap_times else NaN. -/
def fastestLapTime (res : RawResult) : Option ℚ :=
  (res.lapTimes.getD []).min?

/-- Result.time_until_starting_line:
total_time - sum(lap_times) if total_time else None.
A finishTime of None or of exactly 0 is falsy in Python, so both yield None. -/
def timeUntilStartingLine (res : RawResult) : Option ℚ :=
  match res.finishTime with
  | none => none
  | some t => if t = 0 then none else some (t - (res.lapTimes.getD []).sum)

/-- One row of the RaceResultsDataFrame: the columns the pipeline reads or
writes.  Further columns (penalties, metres driven, car, colors, ...) ride
along untouched and are omitted.  The derived position columns start as
none and are filled by the pipeline; lapPositions holds the
lap_positions_race cell, itself an Option because excluded drivers keep the
NaN placeholder. -/
structure TRow where
  name : String
  tsl : Option ℚ
  lapTimes : Option (List ℚ)
  numLaps : Option ℕ
  totalTime : Option ℚ
  fastestQuali : Option ℚ
  startPos : Option ℕ := none
  endPos : Option ℕ := none
  lapPositions : Option (List (Option ℕ)) := none
deriving DecidableEq

/-- Building a table row from the race record (and the optional qualifying
record) as done by Result.as_series plus the dataframe merge. -/
def mkRow (nm : String) (race : RawResult) (quali : Option RawResult) : TRow :=
  { name := nm
    tsl := timeUntilStartingLine race
    lapTimes := race.lapTimes
    numLaps := numLapsDriven race
    totalTime := race.finishTime
    fastestQuali := quali.bind fastestLapTime }

/-! ### Stable sorting, the model of pandas sort_values

Each sort_values call is driven by a strict comparator on rows: lt a b is
true when a must come strictly before b.  Missing keys (NaN) sort last
(na_position last, the pandas default) and exact ties keep the current row
order. -/

/-- Ascending comparison of an optional column, NaN last
(sort_values ascending=True). -/
def ltOptQ (a b : Option ℚ) : Bool :=
  match a, b with
  | some x, some y => decide (x < y)
  | some _, none => true
  | none, _ => false

/-- Descending comparison of the optional lap count, NaN still last
(sort_values ascending=False, na_position last). -/
def ltLapsDesc (a b : Option ℕ) : Bool :=
  match a, b with
  | some x, some y => decide (y < x)
  | some _, none => true
  | none, _ => false

/-- Lexicographic combination of two strict comparators, the model of a
multi-column sort key. -/
def lexB {α : Type} (f g : α → α → Bool) (a b : α) : Bool :=
  if f a b then true else if f b a then false else g a b

/-- A strict weak order given as a Bool comparator: irreflexive, transitive
and with transitive incomparability.  All the sort keys used by the
pipeline satisfy this. -/
structure IsSWO {α : Type} (lt : α → α → Bool) : Prop where
  irrefl : ∀ a, lt a a = false
  trans : ∀ a b c, lt a b = true → lt b c = true → lt a c = true
  negtrans : ∀ a b c, lt a b = false → lt b c = false → lt a c = false

/-- The non-strict relation used by the stable sort: strictly smaller key,
or tied key and not-later original position. -/
def leTag {α : Type} (lt : α → α → Bool) (p q : ℕ × α) : Bool :=
  if lt p.2 q.2 then true
  else if lt q.2 p.2 then false
  else decide (p.1 ≤ q.1)

/-- The rows tagged with their current position and insertion-sorted by
key, ties broken by the tag: a canonical stable sort. -/
def sortTagged {α : Type} (lt : α → α → Bool) (l : List α) : List (ℕ × α) :=
  List.insertionSort (fun p q => leTag lt p q = true) l.enum

/-- pandas sort_values: the rows in stable sorted order. -/
def pandasSort {α : Type} (lt : α → α → Bool) (l : List α) : List α :=
  (sortTagged lt l).map Prod.snd

/-! ### The pipeline steps of RaceResultsDataFrame -/

/-- Sort key of __calc_starting_position when no qualifying data exists:
by time_until_starting_line_race ascending. -/
def ltStartNoQ (r s : TRow) : Bool := ltOptQ r.tsl s.tsl

/-- Sort key of __calc_starting_position with qualifying data:
by fastest_lap_time_quali then time_until_starting_line_race, ascending. -/
def ltStartQ (r s : TRow) : Bool :=
  lexB (fun a b => ltOptQ a.fastestQuali b.fastestQuali)
    (fun a b => ltOptQ a.tsl b.tsl) r s

/-- RaceResultsDataFrame.__calc_starting_position: sort (by quali time and
race start-line time if quali data exists, else by start-line time alone)
and assign starting_position_race = 1..N in the new row order. -/
def calcStartingPosition (hasQuali : Bool) (rows : List TRow) : List TRow :=
  ((if hasQuali then pandasSort ltStartQ rows else pandasSort ltStartNoQ rows).enum.map
    (fun p => { p.2 with startPos := some (p.1 + 1) }))

/-- Sort key of __calc_race_position: num_laps_driven_race descending, then
total_time_race ascending, then starting_position_race ascending. -/
def ltRace (r s : TRow) : Bool :=
  lexB (fun a b => ltLapsDesc a.numLaps b.numLaps)
    (lexB (fun a b => ltOptQ a.totalTime b.totalTime)
      (fun a b => decide (a.startPos.getD 0 < b.startPos.getD 0))) r s

/-- RaceResultsDataFrame.__calc_race_position: sort by laps driven
descending, total time ascending, starting position ascending, and assign
end_position_race = 1..N in the new row order. -/
def calcRacePosition (rows : List TRow) : List TRow :=
  (pandasSort ltRace rows).enum.map (fun p => { p.2 with endPos := some (p.1 + 1) })

/-- The index-to-value pairs that
__interpolate_time_until_starting_line_race hands to the spline: the
time_until_starting_line_race column reindexed 1..N in the current row
order, restricted to its non-missing entries. -/
def interpKnownPairs (rows : List TRow) : List (ℕ × ℚ) :=
  rows.enum.filterMap (fun p => (p.2.tsl).map (fun v => (p.1 + 1, v)))

/-- RaceResultsDataFrame.__interpolate_time_until_starting_line_race:
reindex the column 1..N in the current row order and interpolate the
missing values with the order-2 spline fitted to the known pairs.  The
pandas and scipy semantics are modelled exactly: pandas interpolate
returns the column unchanged when nothing is missing (no scipy call) and
when nothing is known (nothing to fit); scipy UnivariateSpline raises
unless the number of known points exceeds the order 2, and the error
propagates out of the pipeline; otherwise, with the default forward limit
direction, every missing value that lies after the first known index is
filled with the spline value at its index, a leading missing value stays
missing, and known values are never changed.  fill abstracts only the
numeric spline evaluation itself. -/
def interpolateTSLRace (fill : List (ℕ × ℚ) → ℕ → ℚ) (rows : List TRow) :
    Except String (List TRow) :=
  if rows.all (fun r => r.tsl.isSome) then Except.ok rows
  else if (interpKnownPairs rows).length = 0 then Except.ok rows
  else if (interpKnownPairs rows).length ≤ 2 then
    Except.error ("dfitpack error: m > k must hold in UnivariateSpline")
  else
    Except.ok (rows.enum.map (fun p =>
      if p.2.tsl.isSome then p.2
      else if (interpKnownPairs rows).any (fun q => decide (q.1 < p.1 + 1)) then
        { p.2 with tsl := some (fill (interpKnownPairs rows) (p.1 + 1)) }
      else p.2))

/-! ### __calc_lap_positions -/

/-- The rows kept by the filter on line 191: lap_times_race not NaN
(a present-but-empty list is not NaN), tagged with their row position. -/
def included (rows : List TRow) : List (ℕ × TRow) :=
  rows.enum.filter (fun p => p.2.lapTimes.isSome)

/-- Column count of the per-lap time matrix built from the included lap
lists: the maximal lap count of an included driver. -/
def maxLaps (rows : List TRow) : ℕ :=
  ((included rows).map (fun p => (p.2.lapTimes.getD []).length)).foldr max 0

/-- Cumulative completion-time matrix entry (lines 202-210): column 0 is
time_until_starting_line_race, column k adds the first k lap times; cumsum
skips NaN, so a NaN start-line time leaves later columns defined, and
columns past a driver's lap count are NaN. -/
def cumAt (r : TRow) (k : ℕ) : Option ℚ :=
  if k = 0 then r.tsl
  else if k ≤ (r.lapTimes.getD []).length then
    some (r.tsl.getD 0 + ((r.lapTimes.getD []).take k).sum)
  else none

/-- Strict comparator of the per-column rank sort (line 218), by cumulative
time at column k, NaN last. -/
def ltCum (k : ℕ) (p q : ℕ × TRow) : Bool := ltOptQ (cumAt p.2 k) (cumAt q.2 k)

/-- Row order of the working dataframe after the rank sorts for columns
0..k (the loop of lines 217-221 sorts in place, so each sort starts from
the previous order). -/
def ordAt (rows : List TRow) : ℕ → List (ℕ × TRow)
  | 0 => pandasSort (ltCum 0) (included rows)
  | k + 1 => pandasSort (ltCum (k + 1)) (ordAt rows k)

/-- Rank of driver (row index i) at column k: its 1-based position in the
sort by cumulative time at k, or NaN when its cumulative time at k is NaN
(lines 219-220). -/
def rankAt (rows : List TRow) (k i : ℕ) : Option ℕ :=
  match (ordAt rows k).enum.find? (fun q => q.2.1 == i) with
  | none => none
  | some q => if (cumAt q.2.2 k).isSome then some (q.1 + 1) else none

/-- One row of df_lap_table (lines 236-244): the starting position cell,
then the rank cells Lap 1 .. Lap (L-1), then the Lap L cell which line 234
overwrote with end_position_race.  Lap 0 is dropped.  With L = 0 the forced
column is Lap 0 itself and only the starting position remains. -/
def tableRow (rows : List TRow) (i : ℕ) (r : TRow) : List (Option ℕ) :=
  if maxLaps rows = 0 then [r.startPos]
  else r.startPos :: ((List.range' 1 (maxLaps rows - 1)).map (fun k => rankAt rows k i) ++ [r.endPos])

/-- First defined value of an optional list, none if all are missing. -/
def firstSome : List (Option ℕ) → Option ℕ
  | [] => none
  | a :: t => match a with
    | some v => some v
    | none => firstSome t

/-- pandas fillna(method=bfill, axis=1) on one row: every missing cell takes
the next defined value to its right; trailing missing cells stay missing. -/
def bfill : List (Option ℕ) → List (Option ℕ)
  | [] => []
  | a :: t =>
    (match a with
      | some v => some v
      | none => (bfill t).headD none) :: bfill t

/-- The lap_positions_race list stored for included driver i (lines
249-252): its back-filled df_lap_table row. -/
def lapPositionsOf (rows : List TRow) (i : ℕ) (r : TRow) : List (Option ℕ) :=
  bfill (tableRow rows i r)

/-- RaceResultsDataFrame.__calc_lap_positions: the column is first set to
NaN for everyone (line 254), then each included driver receives its list
(lines 256-261); row order of self is unchanged. -/
def calcLapPositions (rows : List TRow) : List TRow :=
  rows.enum.map
    (fun p =>
      if p.2.lapTimes.isSome then { p.2 with lapPositions := some (lapPositionsOf rows p.1 p.2) }
      else { p.2 with lapPositions := none })

/-- RaceResultsDataFrame._run_result_calculations: the four steps in their
fixed order; an exception raised inside the interpolation step propagates
and the lap-position step is never reached. -/
def runResultCalculations (fill : List (ℕ × ℚ) → ℕ → ℚ) (hasQuali : Bool)
    (rows : List TRow) : Except String (List TRow) :=
  (interpolateTSLRace fill (calcRacePosition (calcStartingPosition hasQuali rows))).map
    calcLapPositions

/-! ### The table record and the lap_position_table property -/

/-- The rational one half. -/
def qhalf : ℚ := ⟨1, 2, by decide, by decide⟩

/-- The rational three halves. -/
def q3half : ℚ := ⟨3, 2, by decide, by decide⟩

/-- The rational five halves. -/
def q5half : ℚ := ⟨5, 2, by decide, by decide⟩

/-- The rational seven halves. -/
def q7half : ℚ := ⟨7, 2, by decide, by decide⟩

/-- The rational 59.5 (a lap time of the C4 example). -/
def q119half : ℚ := ⟨119, 2, by decide, by decide⟩

/-- The rational 37.5 (a lap time of the C6 failing input). -/
def q75half : ℚ := ⟨75, 2, by decide, by decide⟩

/-- A concrete stand-in for the scipy spline evaluation, used where the
pipeline must be run on inputs whose fill values do not matter. -/
def fill0 : List (ℕ × ℚ) → ℕ → ℚ := fun _ _ => 0

/-- The three drivers of the spec example for starting positions without
qualifying data: time_until_starting_line_race 1.0 (A), 0.5 (B), 1.5 (C). -/
def exC3 : List TRow :=
  [ { name := "A", tsl := some 1, lapTimes := some [2], numLaps := some 1,
      totalTime := some 3, fastestQuali := none },
    { name := "B", tsl := some qhalf, lapTimes := some [2], numLaps := some 1,
      totalTime := some q5half, fastestQuali := none },
    { name := "C", tsl := some q3half, lapTimes := some [2], numLaps := some 1,
      totalTime := some q7half, fastestQuali := none } ]

/-- The two drivers of the spec example for final positions: A completes
10 of 10 laps (total time 600, lap times summing to 595, start-line time
5), B completes only 8 laps and records no finish time. -/
def exC4 : List TRow :=
  [ { name := "A", tsl := some 5, lapTimes := some (List.replicate 10 q119half),
      numLaps := some 10, totalTime := some 600, fastestQuali := none },
    { name := "B", tsl := none, lapTimes := some (List.replicate 8 70),
      numLaps := some 8, totalTime := none, fastestQuali := none } ]

/-- Failing input for the interpolation step: A starts first (start-line
time 2) but finishes second (total 100), B starts second (start-line time
15) but wins (total 90), C records one lap, no finish and hence no
start-line time. -/
def exC6 : List TRow :=
  [ { name := "A", tsl := some 2, lapTimes := some [49, 49], numLaps := some 2,
      totalTime := some 100, fastestQuali := none },
    { name := "B", tsl := some 15, lapTimes := some [q75half, q75half], numLaps := some 2,
      totalTime := some 90, fastestQuali := none },
    { name := "C", tsl := none, lapTimes := some [50], numLaps := some 1,
      totalTime := none, fastestQuali := none } ]

/-- The table state reached by the C6 failing input when the interpolation
step runs: starting positions assigned, then rows re-sorted into final
classification order by the end-position step. -/
def exC6sorted : List TRow := calcRacePosition (calcStartingPosition false exC6)

/-- A two-driver race, both finishing two laps, used to exhibit the stored
length of lap_positions_race after the full pipeline. -/
def exC1 : List TRow :=
  [ { name := "A", tsl := some 5, lapTimes := some [50, 50], numLaps := some 2,
      totalTime := some 105, fastestQuali := none },
    { name := "B", tsl := some 6, lapTimes := some [52, 52], numLaps := some 2,
      totalTime := some 110, fastestQuali := none } ]

/-- The table state of exC1 after the two position steps.  Every
start-line time is known, so the interpolation step returns these rows
unchanged (pandas short-circuits before any scipy call) and they are the
input of the final lap-position step. -/
def exC1sorted : List TRow := calcRacePosition (calcStartingPosition false exC1)

/-- The row of driver A as it stands in exC1sorted. -/
def exC1rowA : TRow :=
  { name := "A", tsl := some 5, lapTimes := some [50, 50], numLaps := some 2,
    totalTime := some 105, fastestQuali := none, startPos := some 1, endPos := some 1 }

/-- A four-driver race where driver E has a present but empty lap-time
list (raw lapTimes equal to the empty list rather than null).  Three
drivers have a known start-line time, so the order-2 spline fit of the
interpolation step has more known points than its order and the real
pipeline reaches the lap-position step. -/
def exC8 : List TRow :=
  [ { name := "A", tsl := some 5, lapTimes := some [50, 50], numLaps := some 2,
      totalTime := some 105, fastestQuali := none },
    { name := "B", tsl := some 6, lapTimes := some [55, 55], numLaps := some 2,
      totalTime := some 116, fastestQuali := none },
    { name := "C", tsl := some 7, lapTimes := some [60, 60], numLaps := some 2,
      totalTime := some 127, fastestQuali := none },
    { name := "E", tsl := none, lapTimes := some ([] : List ℚ), numLaps := none,
      totalTime := none, fastestQuali := none } ]

/-- The table state of exC8 after the two position steps: classification
order A, B, C, E with E last. -/
def exC8sorted : List TRow := calcRacePosition (calcStartingPosition false exC8)

/-- The known pairs the interpolation step builds on exC8sorted:
[(1, 5), (2, 6), (3, 7)]. -/
def exC8known : List (ℕ × ℚ) := interpKnownPairs exC8sorted

/-- The row of driver E as it stands in exC8sorted: start-line time still
missing, grid slot and end position 4. -/
def exC8rowE : TRow :=
  { name := "E", tsl := none, lapTimes := some ([] : List ℚ), numLaps := none,
    totalTime := none, fastestQuali := none, startPos := some 4, endPos := some 4 }

/-- The table the interpolation step hands to the lap-position step on
exC8, for an arbitrary spline evaluation: rows A, B, C keep their known
start-line times and the trailing missing value of E is filled with the
spline value at x = 4 (E lies after the first known index, so the forward
fill direction reaches it). -/
def exC8mid (fill : List (ℕ × ℚ) → ℕ → ℚ) : List TRow :=
  [ { name := "A", tsl := some 5, lapTimes := some [50, 50], numLaps := some 2,
      totalTime := some 105, fastestQuali := none, startPos := some 1, endPos := some 1 },
    { name := "B", tsl := some 6, lapTimes := some [55, 55], numLaps := some 2,
      totalTime := some 116, fastestQuali := none, startPos := some 2, endPos := some 2 },
    { name := "C", tsl := some 7, lapTimes := some [60, 60], numLaps := some 2,
      totalTime := some 127, fastestQuali := none, startPos := some 3, endPos := some 3 },
    { exC8rowE with tsl := some (fill exC8known 4) } ]

/-- Witness rows: driver A two laps and winner, driver B one lap (lapped),
with the positions the earlier pipeline steps would assign. -/
def wRowA : TRow :=
  { name := "A", tsl := some 5, lapTimes := some [50, 50], numLaps := some 2,
    totalTime := some 105, fastestQuali := none, startPos := some 1, endPos := some 1 }

/-- Witness row of the lapped driver B. -/
def wRowB : TRow :=
  { name := "B", tsl := some 6, lapTimes := some [52], numLaps := some 1,
    totalTime := none, fastestQuali := none, startPos := some 2, endPos := some 2 }

/-- The witness table: rows wRowA and wRowB in final-classification order. -/
def wRows : List TRow := [wRowA, wRowB]

/-- A raw record whose finishTime is exactly zero. -/
def exC10zero : RawResult :=
  { racingTeamId := 7, finishTime := some 0, lapTimes := some [50],
    lapTimePenalties := [], numLapsLed := 0, metresDriven := 1000 }

/-- Driver B of exC3 as it stands after the starting-position step (pole). -/
def exC3rowB : TRow :=
  { name := "B", tsl := some qhalf, lapTimes := some [2], numLaps := some 1,
    totalTime := some q5half, fastestQuali := none, startPos := some 1 }

/-- Driver A of exC3 as it stands after the starting-position step. -/
def exC3rowA : TRow :=
  { name := "A", tsl := some 1, lapTimes := some [2], numLaps := some 1,
    totalTime := some 3, fastestQuali := none, startPos := some 2 }

/-- The exC4 table after the starting-position step. -/
def exC4pre : List TRow := calcStartingPosition false exC4

/-- Driver A of exC4 after both position steps. -/
def exC4rowA : TRow :=
  { name := "A", tsl := some 5, lapTimes := some (List.replicate 10 q119half),
    numLaps := some 10, totalTime := some 600, fastestQuali := none,
    startPos := some 1, endPos := some 1 }

/-- Driver B of exC4 after both position steps. -/
def exC4rowB : TRow :=
  { name := "B", tsl := none, lapTimes := some (List.replicate 8 70),
    numLaps := some 8, totalTime := none, fastestQuali := none,
    startPos := some 2, endPos := some 2 }

/-- A driver row whose lap_times_race cell is null (NaN), as left by the
first three pipeline steps. -/
def wNullRow : TRow :=
  { name := "N", tsl := none, lapTimes := none, numLaps := none,
    totalTime := none, fastestQuali := none, startPos := some 2, endPos := some 2 }

/-- Witness rows containing a null-lap-times driver. -/
def wRows2 : List TRow := [wRowA, wNullRow]

/-- A one-row raw table whose only driver has null lap times. -/
def wNullOnly : List TRow :=
  [ { name := "N", tsl := none, lapTimes := none, numLaps := none,
      totalTime := none, fastestQuali := none } ]

/-- The row the full pipeline produces from wNullOnly: with no known
start-line time at all the interpolation step leaves the all-missing
column untouched. -/
def wNullOut : TRow :=
  { name := "N", tsl := none, lapTimes := none, numLaps := none,
    totalTime := none, fastestQuali := none, startPos := some 1, endPos := some 1,
    lapPositions := none }

/-! ## Lemmas: the comparators are strict weak orders -/

theorem IsSWO.asymm {α : Type} {lt : α → α → Bool} (h : IsSWO lt) {a b : α}
    (hab : lt a b = true) : lt b a = false := by
  by_contra hba
  rw [Bool.not_eq_false] at hba
  have habs := h.trans a b a hab hba
  rw [h.irrefl a] at habs
  exact Bool.false_ne_true habs

theorem IsSWO.comap {α β : Type} {lt : α → α → Bool} (h : IsSWO lt) (f : β → α) :
    IsSWO (fun a b => lt (f a) (f b)) := by
  refine ⟨fun a => h.irrefl (f a), fun a b c => h.trans (f a) (f b) (f c),
    fun a b c => h.negtrans (f a) (f b) (f c)⟩

theorem ltOptQ_swo : IsSWO ltOptQ := by
  refine ⟨?_, ?_, ?_⟩
  · intro a
    cases a <;> simp [ltOptQ]
  · intro a b c hab hbc
    cases a <;> cases b <;> cases c <;> simp_all [ltOptQ]
    exact lt_trans hab hbc
  · intro a b c hab hbc
    cases a <;> cases b <;> cases c <;> simp_all [ltOptQ]
    exact le_trans hbc hab

theorem ltLapsDesc_swo : IsSWO ltLapsDesc := by
  refine ⟨?_, ?_, ?_⟩
  · intro a
    cases a <;> simp [ltLapsDesc]
  · intro a b c hab hbc
    cases a <;> cases b <;> cases c <;> simp_all [ltLapsDesc]
    exact lt_trans hbc hab
  · intro a b c hab hbc
    cases a <;> cases b <;> cases c <;> simp_all [ltLapsDesc]
    exact le_trans hab hbc

theorem ltNatB_swo : IsSWO (fun a b : ℕ => decide (a < b)) := by
  refine ⟨?_, ?_, ?_⟩
  · intro a
    simp
  · intro a b c hab hbc
    simp_all
    exact lt_trans hab hbc
  · intro a b c hab hbc
    simp_all
    exact le_trans hbc hab

theorem lexB_true_iff {α : Type} (f g : α → α → Bool) (a b : α) :
    lexB f g a b = true ↔
      (f a b = true ∨ (f a b = false ∧ f b a = false ∧ g a b = true)) := by
  cases h1 : f a b <;> cases h2 : f b a <;> simp [lexB, h1, h2]

theorem lexB_false_iff {α : Type} (f g : α → α → Bool) (a b : α) :
    lexB f g a b = false ↔
      (f a b = false ∧ (f b a = true ∨ g a b = false)) := by
  cases h1 : f a b <;> cases h2 : f b a <;> simp [lexB, h1, h2]

theorem lexB_swo {α : Type} {f g : α → α → Bool} (hf : IsSWO f) (hg : IsSWO g) :
    IsSWO (lexB f g) := by
  refine ⟨?_, ?_, ?_⟩
  · intro a
    rw [lexB_false_iff]
    exact ⟨hf.irrefl a, Or.inr (hg.irrefl a)⟩
  · intro a b c hab hbc
    rw [lexB_true_iff] at hab hbc ⊢
    rcases hab with hab | ⟨hab1, hab2, hab3⟩
    · rcases hbc with hbc | ⟨hbc1, hbc2, hbc3⟩
      · exact Or.inl (hf.trans a b c hab hbc)
      · left
        by_contra hac
        rw [Bool.not_eq_true] at hac
        have := hf.negtrans a c b hac hbc2
        rw [hab] at this
        simp at this
    · rcases hbc with hbc | ⟨hbc1, hbc2, hbc3⟩
      · left
        by_contra hac
        rw [Bool.not_eq_true] at hac
        have := hf.negtrans b a c hab2 hac
        rw [hbc] at this
        simp at this
      · refine Or.inr ⟨hf.negtrans a b c hab1 hbc1, hf.negtrans c b a hbc2 hab2,
          hg.trans a b c hab3 hbc3⟩
  · intro a b c hab hbc
    rw [lexB_false_iff] at hab hbc ⊢
    obtain ⟨hab1, hab2⟩ := hab
    obtain ⟨hbc1, hbc2⟩ := hbc
    refine ⟨hf.negtrans a b c hab1 hbc1, ?_⟩
    rcases hab2 with hba | hgab
    · rcases hbc2 with hcb | hgbc
      · exact Or.inl (hf.trans c b a hcb hba)
      · left
        by_contra hca
        rw [Bool.not_eq_true] at hca
        have := hf.negtrans b c a hbc1 hca
        rw [hba] at this
        simp at this
    · rcases hbc2 with hcb | hgbc
      · left
        by_contra hca
        rw [Bool.not_eq_true] at hca
        have := hf.negtrans c a b hca hab1
        rw [hcb] at this
        simp at this
      · exact Or.inr (hg.negtrans a b c hgab hgbc)

theorem ltStartNoQ_swo : IsSWO ltStartNoQ :=
  ltOptQ_swo.comap (fun r : TRow => r.tsl)

theorem ltStartQ_swo : IsSWO ltStartQ :=
  lexB_swo (ltOptQ_swo.comap (fun r : TRow => r.fastestQuali))
    (ltOptQ_swo.comap (fun r : TRow => r.tsl))

theorem ltRace_swo : IsSWO ltRace :=
  lexB_swo (ltLapsDesc_swo.comap (fun r : TRow => r.numLaps))
    (lexB_swo (ltOptQ_swo.comap (fun r : TRow => r.totalTime))
      (ltNatB_swo.comap (fun r : TRow => r.startPos.getD 0)))

theorem ltCum_swo (k : ℕ) : IsSWO (ltCum k) :=
  ltOptQ_swo.comap (fun p : ℕ × TRow => cumAt p.2 k)

/-! ## Lemmas: the stable sort -/

theorem leTag_true_iff {α : Type} (lt : α → α → Bool) (p q : ℕ × α) :
    leTag lt p q = true ↔
      (lt p.2 q.2 = true ∨ (lt p.2 q.2 = false ∧ lt q.2 p.2 = false ∧ p.1 ≤ q.1)) := by
  cases h1 : lt p.2 q.2 <;> cases h2 : lt q.2 p.2 <;> simp [leTag, h1, h2]

theorem leTag_total {α : Type} (lt : α → α → Bool) (p q : ℕ × α) :
    leTag lt p q = true ∨ leTag lt q p = true := by
  rw [leTag_true_iff, leTag_true_iff]
  cases h1 : lt p.2 q.2 <;> cases h2 : lt q.2 p.2 <;> simp
  exact Nat.le_total p.1 q.1

theorem leTag_trans {α : Type} {lt : α → α → Bool} (h : IsSWO lt) (p q r : ℕ × α)
    (hpq : leTag lt p q = true) (hqr : leTag lt q r = true) : leTag lt p r = true := by
  rw [leTag_true_iff] at hpq hqr ⊢
  rcases hpq with hpq | ⟨hpq1, hpq2, hpq3⟩
  · rcases hqr with hqr | ⟨hqr1, hqr2, hqr3⟩
    · exact Or.inl (h.trans _ _ _ hpq hqr)
    · left
      by_contra hpr
      rw [Bool.not_eq_true] at hpr
      have hv := h.negtrans p.2 r.2 q.2 hpr hqr2
      rw [hpq] at hv
      simp at hv
  · rcases hqr with hqr | ⟨hqr1, hqr2, hqr3⟩
    · left
      by_contra hpr
      rw [Bool.not_eq_true] at hpr
      have hv := h.negtrans q.2 p.2 r.2 hpq2 hpr
      rw [hqr] at hv
      simp at hv
    · exact Or.inr ⟨h.negtrans _ _ _ hpq1 hqr1, h.negtrans _ _ _ hqr2 hpq2,
        le_trans hpq3 hqr3⟩

theorem sortTagged_perm {α : Type} (lt : α → α → Bool) (l : List α) :
    List.Perm (sortTagged lt l) l.enum :=
  List.perm_insertionSort _ _

theorem sortTagged_length {α : Type} (lt : α → α → Bool) (l : List α) :
    (sortTagged lt l).length = l.length := by
  rw [(sortTagged_perm lt l).length_eq, List.enum_length]

theorem sortTagged_sorted {α : Type} {lt : α → α → Bool} (h : IsSWO lt) (l : List α) :
    List.Pairwise (fun p q => leTag lt p q = true) (sortTagged lt l) := by
  haveI : IsTotal (ℕ × α) (fun p q => leTag lt p q = true) := ⟨leTag_total lt⟩
  haveI : IsTrans (ℕ × α) (fun p q => leTag lt p q = true) := ⟨leTag_trans h⟩
  exact List.sorted_insertionSort _ _

theorem sortTagged_fst_nodup {α : Type} (lt : α → α → Bool) (l : List α) :
    ((sortTagged lt l).map Prod.fst).Nodup := by
  have hp : List.Perm ((sortTagged lt l).map Prod.fst) (l.enum.map Prod.fst) :=
    (sortTagged_perm lt l).map Prod.fst
  rw [List.enum_map_fst] at hp
  exact hp.nodup_iff.mpr (List.nodup_range _)

theorem sortTagged_lt_index {α : Type} {lt : α → α → Bool} (h : IsSWO lt) (l : List α)
    (i j : ℕ) (hi : i < (sortTagged lt l).length) (hj : j < (sortTagged lt l).length)
    (hlt : lt ((sortTagged lt l)[i]).2 ((sortTagged lt l)[j]).2 = true) : i < j := by
  rcases Nat.lt_trichotomy i j with hij | hij | hij
  · exact hij
  · subst hij
    rw [h.irrefl] at hlt
    simp at hlt
  · have hpw := List.pairwise_iff_get.mp (sortTagged_sorted h l) ⟨j, hj⟩ ⟨i, hi⟩ hij
    rw [List.get_eq_getElem, List.get_eq_getElem] at hpw
    rw [leTag_true_iff] at hpw
    rcases hpw with hv | ⟨hv1, hv2, hv3⟩
    · rw [h.asymm hv] at hlt
      simp at hlt
    · rw [hv2] at hlt
      simp at hlt

theorem sortTagged_stable {α : Type} {lt : α → α → Bool} (h : IsSWO lt) (l : List α) :
    List.Pairwise (fun p q => lt p.2 q.2 = false → lt q.2 p.2 = false → p.1 < q.1)
      (sortTagged lt l) := by
  have h1 := sortTagged_sorted h l
  have h2 : List.Pairwise (fun p q : ℕ × α => p.1 ≠ q.1) (sortTagged lt l) := by
    have hn := sortTagged_fst_nodup lt l
    rw [List.Nodup, List.pairwise_map] at hn
    exact hn
  refine (h1.and h2).imp ?_
  intro p q hpq hf1 hf2
  rcases (leTag_true_iff lt p q).mp hpq.1 with hv | ⟨hv1, hv2, hv3⟩
  · rw [hv] at hf1
    simp at hf1
  · exact lt_of_le_of_ne hv3 hpq.2

theorem pandasSort_perm {α : Type} (lt : α → α → Bool) (l : List α) :
    List.Perm (pandasSort lt l) l := by
  have hp := (sortTagged_perm lt l).map Prod.snd
  rwa [List.enum_map_snd] at hp

theorem pandasSort_length {α : Type} (lt : α → α → Bool) (l : List α) :
    (pandasSort lt l).length = l.length :=
  (pandasSort_perm lt l).length_eq

theorem pandasSort_getElem {α : Type} (lt : α → α → Bool) (l : List α) (i : ℕ)
    (hi : i < (pandasSort lt l).length) (hs : i < (sortTagged lt l).length) :
    (pandasSort lt l)[i] = ((sortTagged lt l)[i]).2 := by
  apply List.getElem_map

theorem pandasSort_getElem?_mem {α : Type} (lt : α → α → Bool) (l : List α) (i : ℕ)
    (r : α) (h : (pandasSort lt l)[i]? = some r) : r ∈ l :=
  (pandasSort_perm lt l).mem_iff.mp (List.getElem?_mem h)

theorem pandasSort_lt_index {α : Type} {lt : α → α → Bool} (h : IsSWO lt) (l : List α)
    (i j : ℕ) (hi : i < (pandasSort lt l).length) (hj : j < (pandasSort lt l).length)
    (hlt : lt ((pandasSort lt l)[i]) ((pandasSort lt l)[j]) = true) : i < j := by
  have hsi : i < (sortTagged lt l).length := by
    rw [sortTagged_length]
    rw [pandasSort_length] at hi
    exact hi
  have hsj : j < (sortTagged lt l).length := by
    rw [sortTagged_length]
    rw [pandasSort_length] at hj
    exact hj
  rw [pandasSort_getElem lt l i hi hsi, pandasSort_getElem lt l j hj hsj] at hlt
  exact sortTagged_lt_index h l i j hsi hsj hlt

/-! ## Lemmas: back-filling -/

theorem bfill_headD (l : List (Option ℕ)) : (bfill l).headD none = firstSome l := by
  induction l with
  | nil => rfl
  | cons a t ih =>
    cases a with
    | some v => simp [bfill, firstSome]
    | none => simpa [bfill, firstSome] using ih

theorem bfill_eq_map (l : List (Option ℕ)) :
    bfill l = (List.range l.length).map (fun k => firstSome (l.drop k)) := by
  induction l with
  | nil => rfl
  | cons a t ih =>
    rw [List.length_cons, List.range_succ_eq_map, List.map_cons, List.map_map]
    have htail : (List.range t.length).map ((fun k => firstSome ((a :: t).drop k)) ∘ Nat.succ)
        = (List.range t.length).map (fun k => firstSome (t.drop k)) := by
      refine List.map_congr_left ?_
      intro k hk
      rfl
    rw [htail, ← ih]
    cases a with
    | some v => simp [bfill, firstSome]
    | none => simpa [bfill, firstSome] using bfill_headD t

theorem bfill_length (l : List (Option ℕ)) : (bfill l).length = l.length := by
  rw [bfill_eq_map, List.length_map, List.length_range]

theorem bfill_getElem? (l : List (Option ℕ)) (k : ℕ) (hk : k < l.length) :
    (bfill l)[k]? = some (firstSome (l.drop k)) := by
  rw [bfill_eq_map, List.getElem?_map, List.getElem?_range hk]
  rfl

theorem bfill_getLast? (l : List (Option ℕ)) : (bfill l).getLast? = l.getLast? := by
  induction l with
  | nil => rfl
  | cons a t ih =>
    cases t with
    | nil => cases a <;> simp [bfill]
    | cons b t2 =>
      have hstep : (bfill (a :: b :: t2)).getLast? = (bfill (b :: t2)).getLast? := rfl
      rw [hstep, ih]
      rfl

theorem firstSome_isSome_of_getLast {l : List (Option ℕ)} {v : ℕ}
    (h : l.getLast? = some (some v)) : (firstSome l).isSome := by
  induction l with
  | nil => simp at h
  | cons a t ih =>
    cases t with
    | nil =>
      have ha : a = some v := by
        have hone : ([a] : List (Option ℕ)).getLast? = some a := rfl
        rw [hone] at h
        exact Option.some_injective _ h
      rw [ha]
      rfl
    | cons b t2 =>
      have hv : (b :: t2).getLast? = some (some v) := h
      cases a with
      | some w => rfl
      | none => exact ih hv

theorem firstSome_append_of_forall_none {l1 l2 : List (Option ℕ)}
    (h : ∀ x ∈ l1, x = none) : firstSome (l1 ++ l2) = firstSome l2 := by
  induction l1 with
  | nil => rfl
  | cons a t ih =>
    have ha : a = none := h a (List.mem_cons_self a t)
    rw [ha, List.cons_append]
    have hnone : firstSome (none :: (t ++ l2)) = firstSome (t ++ l2) := rfl
    rw [hnone]
    exact ih (fun x hx => h x (List.mem_cons_of_mem a hx))

/-! ## Lemmas: the lap-position computation -/

theorem mem_included_iff (rows : List TRow) (i : ℕ) (r : TRow) :
    (i, r) ∈ included rows ↔ rows[i]? = some r ∧ r.lapTimes.isSome = true := by
  rw [included, List.mem_filter, List.mem_enum_iff_getElem?]

theorem le_foldr_max (l : List ℕ) (x : ℕ) (hx : x ∈ l) : x ≤ l.foldr max 0 := by
  induction l with
  | nil => simp at hx
  | cons a t ih =>
    rcases List.mem_cons.mp hx with hv | hv
    · subst hv
      exact le_max_left _ _
    · exact le_trans (ih hv) (le_max_right _ _)

theorem length_le_maxLaps {rows : List TRow} {i : ℕ} {r : TRow}
    (hget : rows[i]? = some r) (hsome : r.lapTimes.isSome = true) :
    (r.lapTimes.getD []).length ≤ maxLaps rows := by
  refine le_foldr_max _ _ ?_
  refine List.mem_map.mpr ⟨(i, r), ?_, rfl⟩
  exact (mem_included_iff rows i r).mpr ⟨hget, hsome⟩

theorem maxLaps_pos {rows : List TRow} {i : ℕ} {r : TRow} {l : List ℚ}
    (hget : rows[i]? = some r) (hl : r.lapTimes = some l) (hne : l ≠ []) :
    1 ≤ maxLaps rows := by
  have hlen : (r.lapTimes.getD []).length ≤ maxLaps rows :=
    length_le_maxLaps hget (by rw [hl]; rfl)
  rw [hl] at hlen
  have hpos : 1 ≤ l.length := by
    cases l with
    | nil => exact absurd rfl hne
    | cons a t => simp
  exact le_trans hpos hlen

theorem ordAt_perm (rows : List TRow) (k : ℕ) :
    List.Perm (ordAt rows k) (included rows) := by
  induction k with
  | zero => exact pandasSort_perm _ _
  | succ n ih => exact (pandasSort_perm _ _).trans ih

theorem rankAt_eq_none {rows : List TRow} {i : ℕ} {r : TRow}
    (hget : rows[i]? = some r) (hsome : r.lapTimes.isSome = true) {k : ℕ}
    (hcum : cumAt r k = none) : rankAt rows k i = none := by
  rw [rankAt]
  cases hf : (ordAt rows k).enum.find? (fun q => q.2.1 == i) with
  | none => rfl
  | some q =>
    have hq1 := List.find?_some hf
    have hqi : q.2.1 = i := by simpa using hq1
    have hqmem : q ∈ (ordAt rows k).enum := List.mem_of_find?_eq_some hf
    have hq2mem : q.2 ∈ ordAt rows k := by
      have hgl := (List.mem_enum_iff_getElem?).mp hqmem
      exact List.getElem?_mem hgl
    have hinc : q.2 ∈ included rows := (ordAt_perm rows k).mem_iff.mp hq2mem
    have hrow : rows[q.2.1]? = some q.2.2 :=
      ((mem_included_iff rows q.2.1 q.2.2).mp hinc).1
    rw [hqi, hget] at hrow
    have hrr : q.2.2 = r := (Option.some_injective _ hrow).symm
    show (if (cumAt q.2.2 k).isSome = true then some (q.1 + 1) else none) = none
    rw [hrr, hcum]
    rfl

theorem cumAt_eq_none_of_lt {r : TRow} {l : List ℚ} (hl : r.lapTimes = some l) {k : ℕ}
    (hk : l.length < k) : cumAt r k = none := by
  rw [cumAt, hl]
  have hk0 : k ≠ 0 := by
    intro hv
    rw [hv] at hk
    exact Nat.not_lt_zero _ hk
  rw [if_neg hk0, if_neg]
  rw [Option.getD_some]
  exact not_le.mpr hk

theorem tableRow_length (rows : List TRow) (i : ℕ) (r : TRow)
    (hL : maxLaps rows ≠ 0) : (tableRow rows i r).length = maxLaps rows + 1 := by
  rw [tableRow, if_neg hL]
  simp only [List.length_cons, List.length_append, List.length_map, List.length_range',
    List.length_nil]
  omega

theorem tableRow_getLast? (rows : List TRow) (i : ℕ) (r : TRow)
    (hL : maxLaps rows ≠ 0) : (tableRow rows i r).getLast? = some r.endPos := by
  rw [tableRow, if_neg hL]
  rw [← List.cons_append]
  exact List.getLast?_concat _

theorem lapPositionsOf_length (rows : List TRow) (i : ℕ) (r : TRow)
    (hL : maxLaps rows ≠ 0) : (lapPositionsOf rows i r).length = maxLaps rows + 1 := by
  rw [lapPositionsOf, bfill_length]
  exact tableRow_length rows i r hL

theorem lapPositionsOf_getLast? (rows : List TRow) (i : ℕ) (r : TRow)
    (hL : maxLaps rows ≠ 0) : (lapPositionsOf rows i r).getLast? = some r.endPos := by
  rw [lapPositionsOf, bfill_getLast?]
  exact tableRow_getLast? rows i r hL

theorem tableRow_head (rows : List TRow) (i : ℕ) (r : TRow) :
    ∃ rest : List (Option ℕ), tableRow rows i r = r.startPos :: rest := by
  rw [tableRow]
  by_cases hL : maxLaps rows = 0
  · rw [if_pos hL]
    exact ⟨[], rfl⟩
  · rw [if_neg hL]
    exact ⟨_, rfl⟩

theorem lapPositionsOf_head (rows : List TRow) (i : ℕ) (r : TRow) {s : ℕ}
    (hs : r.startPos = some s) : (lapPositionsOf rows i r)[0]? = some (some s) := by
  obtain ⟨rest, hrest⟩ := tableRow_head rows i r
  rw [lapPositionsOf, bfill_getElem? _ 0 (by rw [hrest]; simp)]
  rw [List.drop_zero, hrest, hs]
  rfl

theorem getLast?_drop_of_lt {α : Type} (l : List α) (k : ℕ) (hk : k < l.length) :
    (l.drop k).getLast? = l.getLast? := by
  induction l generalizing k with
  | nil => simp at hk
  | cons a t ih =>
    cases k with
    | zero => rw [List.drop_zero]
    | succ n =>
      have hn : n < t.length := by
        rw [List.length_cons] at hk
        omega
      have hd : (a :: t).drop (n + 1) = t.drop n := rfl
      rw [hd, ih n hn]
      cases t with
      | nil => simp at hn
      | cons b t2 => rfl

theorem lapPositionsOf_isSome (rows : List TRow) (i : ℕ) (r : TRow)
    (hL : maxLaps rows ≠ 0) {e : ℕ} (he : r.endPos = some e) :
    ∀ x ∈ lapPositionsOf rows i r, x.isSome = true := by
  intro x hx
  rw [lapPositionsOf, bfill_eq_map] at hx
  obtain ⟨k, hk, hxk⟩ := List.mem_map.mp hx
  rw [List.mem_range] at hk
  rw [← hxk]
  refine firstSome_isSome_of_getLast (v := e) ?_
  rw [getLast?_drop_of_lt _ k hk, tableRow_getLast? rows i r hL, he]

theorem calcLapPositions_getElem? (rows : List TRow) (i : ℕ) (r : TRow)
    (hget : rows[i]? = some r) :
    (calcLapPositions rows)[i]? = some
      (if r.lapTimes.isSome then { r with lapPositions := some (lapPositionsOf rows i r) }
       else { r with lapPositions := none }) := by
  rw [calcLapPositions, List.getElem?_map, List.getElem?_enum, hget]
  rfl

theorem calcLapPositions_getElem?_of_some (rows : List TRow) (i : ℕ) (r : TRow)
    (hget : rows[i]? = some r) (hsome : r.lapTimes.isSome = true) :
    (calcLapPositions rows)[i]? =
      some { r with lapPositions := some (lapPositionsOf rows i r) } := by
  rw [calcLapPositions_getElem? rows i r hget, if_pos hsome]

theorem calcLapPositions_getElem?_of_none (rows : List TRow) (i : ℕ) (r : TRow)
    (hget : rows[i]? = some r) (hnone : r.lapTimes = none) :
    (calcLapPositions rows)[i]? = some { r with lapPositions := none } := by
  rw [calcLapPositions_getElem? rows i r hget, if_neg]
  rw [hnone]
  simp

/-! ## Lemmas: position assignment by the first two pipeline steps -/

theorem enum_map_succ_some {α : Type} (l : List α) :
    l.enum.map (fun p => some (p.1 + 1)) = (List.range' 1 l.length).map some := by
  have h1 : l.enum.map (fun p => some (p.1 + 1))
      = (l.enum.map Prod.fst).map (fun n => some (n + 1)) := by
    rw [List.map_map]
    rfl
  rw [h1, List.enum_map_fst]
  have h2 : List.range' 1 l.length = (List.range l.length).map (fun n => n + 1) := by
    rw [List.range'_eq_map_range]
    refine List.map_congr_left ?_
    intro a ha
    exact Nat.add_comm 1 a
  rw [h2, List.map_map]
  rfl

theorem calcStartingPosition_eq (hq : Bool) (rows : List TRow) :
    calcStartingPosition hq rows =
      (pandasSort (if hq then ltStartQ else ltStartNoQ) rows).enum.map
        (fun p => { p.2 with startPos := some (p.1 + 1) }) := by
  cases hq <;> rfl

theorem calcStartingPosition_length (hq : Bool) (rows : List TRow) :
    (calcStartingPosition hq rows).length = rows.length := by
  rw [calcStartingPosition_eq, List.length_map, List.enum_length, pandasSort_length]

theorem calcStartingPosition_getElem? (hq : Bool) (rows : List TRow) (i : ℕ) :
    (calcStartingPosition hq rows)[i]? =
      ((pandasSort (if hq then ltStartQ else ltStartNoQ) rows)[i]?).map
        (fun r => { r with startPos := some (i + 1) }) := by
  rw [calcStartingPosition_eq, List.getElem?_map, List.getElem?_enum]
  cases hv : (pandasSort (if hq then ltStartQ else ltStartNoQ) rows)[i]? <;> simp [hv]

theorem calcStartingPosition_map_startPos (hq : Bool) (rows : List TRow) :
    (calcStartingPosition hq rows).map (fun r => r.startPos) =
      (List.range' 1 rows.length).map some := by
  rw [calcStartingPosition_eq, List.map_map]
  have h1 : ((fun r => r.startPos) ∘ fun p : ℕ × TRow => { p.2 with startPos := some (p.1 + 1) })
      = fun p : ℕ × TRow => some (p.1 + 1) := rfl
  rw [h1, ← pandasSort_length (if hq then ltStartQ else ltStartNoQ) rows]
  exact enum_map_succ_some _

theorem calcRacePosition_length (rows : List TRow) :
    (calcRacePosition rows).length = rows.length := by
  rw [calcRacePosition, List.length_map, List.enum_length, pandasSort_length]

theorem calcRacePosition_getElem? (rows : List TRow) (i : ℕ) :
    (calcRacePosition rows)[i]? =
      ((pandasSort ltRace rows)[i]?).map (fun r => { r with endPos := some (i + 1) }) := by
  rw [calcRacePosition, List.getElem?_map, List.getElem?_enum]
  cases hv : (pandasSort ltRace rows)[i]? <;> simp [hv]

theorem calcRacePosition_map_endPos (rows : List TRow) :
    (calcRacePosition rows).map (fun r => r.endPos) = (List.range' 1 rows.length).map some := by
  rw [calcRacePosition, List.map_map]
  have h1 : ((fun r => r.endPos) ∘ fun p : ℕ × TRow => { p.2 with endPos := some (p.1 + 1) })
      = fun p : ℕ × TRow => some (p.1 + 1) := rfl
  rw [h1, ← pandasSort_length ltRace rows]
  exact enum_map_succ_some _

theorem calcRacePosition_map_startPos_perm (rows : List TRow) :
    List.Perm ((calcRacePosition rows).map (fun r => r.startPos))
      (rows.map (fun r => r.startPos)) := by
  rw [calcRacePosition, List.map_map]
  have h1 : ((fun r => r.startPos) ∘ fun p : ℕ × TRow => { p.2 with endPos := some (p.1 + 1) })
      = (fun r => r.startPos) ∘ (Prod.snd : ℕ × TRow → TRow) := rfl
  rw [h1, ← List.map_map, List.enum_map_snd]
  exact (pandasSort_perm ltRace rows).map _

theorem ltRace_set_endPos (r s : TRow) (n m : Option ℕ) :
    ltRace { r with endPos := n } { s with endPos := m } = ltRace r s := rfl

theorem calcRacePosition_lt_index (rows : List TRow) (i j : ℕ) (ri rj : TRow)
    (hi : (calcRacePosition rows)[i]? = some ri) (hj : (calcRacePosition rows)[j]? = some rj)
    (hlt : ltRace ri rj = true) : i < j := by
  rw [calcRacePosition_getElem? rows i] at hi
  rw [calcRacePosition_getElem? rows j] at hj
  cases hsi : (pandasSort ltRace rows)[i]? with
  | none => rw [hsi] at hi; simp at hi
  | some si =>
    cases hsj : (pandasSort ltRace rows)[j]? with
    | none => rw [hsj] at hj; simp at hj
    | some sj =>
      rw [hsi] at hi
      rw [hsj] at hj
      have hri : ri = { si with endPos := some (i + 1) } := by
        have := Option.some_injective _ hi
        exact this.symm
      have hrj : rj = { sj with endPos := some (j + 1) } := by
        have := Option.some_injective _ hj
        exact this.symm
      rw [hri, hrj, ltRace_set_endPos] at hlt
      obtain ⟨hbi, hgi⟩ := List.getElem?_eq_some_iff.mp hsi
      obtain ⟨hbj, hgj⟩ := List.getElem?_eq_some_iff.mp hsj
      refine pandasSort_lt_index ltRace_swo rows i j hbi hbj ?_
      rw [hgi, hgj]
      exact hlt

theorem startKey_set_startPos (hq : Bool) (r s : TRow) (n m : Option ℕ) :
    (if hq then ltStartQ else ltStartNoQ) { r with startPos := n } { s with startPos := m }
      = (if hq then ltStartQ else ltStartNoQ) r s := by
  cases hq <;> rfl

theorem startKey_swo (hq : Bool) : IsSWO (if hq then ltStartQ else ltStartNoQ) := by
  cases hq
  · exact ltStartNoQ_swo
  · exact ltStartQ_swo

theorem calcStartingPosition_lt_index (hq : Bool) (rows : List TRow) (i j : ℕ) (ri rj : TRow)
    (hi : (calcStartingPosition hq rows)[i]? = some ri)
    (hj : (calcStartingPosition hq rows)[j]? = some rj)
    (hlt : (if hq then ltStartQ else ltStartNoQ) ri rj = true) : i < j := by
  rw [calcStartingPosition_getElem? hq rows i] at hi
  rw [calcStartingPosition_getElem? hq rows j] at hj
  cases hsi : (pandasSort (if hq then ltStartQ else ltStartNoQ) rows)[i]? with
  | none => rw [hsi] at hi; simp at hi
  | some si =>
    cases hsj : (pandasSort (if hq then ltStartQ else ltStartNoQ) rows)[j]? with
    | none => rw [hsj] at hj; simp at hj
    | some sj =>
      rw [hsi] at hi
      rw [hsj] at hj
      have hri : ri = { si with startPos := some (i + 1) } := (Option.some_injective _ hi).symm
      have hrj : rj = { sj with startPos := some (j + 1) } := (Option.some_injective _ hj).symm
      rw [hri, hrj, startKey_set_startPos] at hlt
      obtain ⟨hbi, hgi⟩ := List.getElem?_eq_some_iff.mp hsi
      obtain ⟨hbj, hgj⟩ := List.getElem?_eq_some_iff.mp hsj
      refine pandasSort_lt_index (startKey_swo hq) rows i j hbi hbj ?_
      rw [hgi, hgj]
      exact hlt

theorem calcStartingPosition_startPos_getElem? (hq : Bool) (rows : List TRow) (i : ℕ)
    (ri : TRow) (hi : (calcStartingPosition hq rows)[i]? = some ri) :
    ri.startPos = some (i + 1) := by
  rw [calcStartingPosition_getElem? hq rows i] at hi
  cases hsi : (pandasSort (if hq then ltStartQ else ltStartNoQ) rows)[i]? with
  | none => rw [hsi] at hi; simp at hi
  | some si =>
    rw [hsi] at hi
    have hri : ri = { si with startPos := some (i + 1) } := (Option.some_injective _ hi).symm
    rw [hri]

theorem calcRacePosition_endPos_getElem? (rows : List TRow) (i : ℕ)
    (ri : TRow) (hi : (calcRacePosition rows)[i]? = some ri) :
    ri.endPos = some (i + 1) := by
  rw [calcRacePosition_getElem? rows i] at hi
  cases hsi : (pandasSort ltRace rows)[i]? with
  | none => rw [hsi] at hi; simp at hi
  | some si =>
    rw [hsi] at hi
    have hri : ri = { si with endPos := some (i + 1) } := (Option.some_injective _ hi).symm
    rw [hri]

/-! ## Lemmas: membership through the pipeline steps -/

theorem mem_enum_snd {α : Type} {l : List α} {p : ℕ × α} (h : p ∈ l.enum) : p.2 ∈ l := by
  have hg := (List.mem_enum_iff_getElem?).mp h
  exact List.getElem?_mem hg

theorem mem_calcStartingPosition {hq : Bool} {rows : List TRow} {r1 : TRow}
    (h : r1 ∈ calcStartingPosition hq rows) :
    ∃ n : ℕ, ∃ r0 ∈ rows, r1 = { r0 with startPos := some n } := by
  rw [calcStartingPosition_eq] at h
  obtain ⟨p, hp, hval⟩ := List.mem_map.mp h
  refine ⟨p.1 + 1, p.2, ?_, hval.symm⟩
  exact (pandasSort_perm _ rows).mem_iff.mp (mem_enum_snd hp)

theorem mem_calcRacePosition {rows : List TRow} {r2 : TRow}
    (h : r2 ∈ calcRacePosition rows) :
    ∃ n : ℕ, ∃ r0 ∈ rows, r2 = { r0 with endPos := some n } := by
  rw [calcRacePosition] at h
  obtain ⟨p, hp, hval⟩ := List.mem_map.mp h
  refine ⟨p.1 + 1, p.2, ?_, hval.symm⟩
  exact (pandasSort_perm _ rows).mem_iff.mp (mem_enum_snd hp)

theorem mem_interpolateTSLRace {fill : List (ℕ × ℚ) → ℕ → ℚ} {rows out : List TRow}
    (h : interpolateTSLRace fill rows = Except.ok out) {r : TRow} (hr : r ∈ out) :
    ∃ r0 ∈ rows, r.startPos = r0.startPos ∧ r.endPos = r0.endPos ∧
      r.lapTimes = r0.lapTimes := by
  rw [interpolateTSLRace] at h
  by_cases h1 : (rows.all fun r => r.tsl.isSome) = true
  · rw [if_pos h1] at h
    rw [← Except.ok.inj h] at hr
    exact ⟨r, hr, rfl, rfl, rfl⟩
  · rw [if_neg h1] at h
    by_cases h2 : (interpKnownPairs rows).length = 0
    · rw [if_pos h2] at h
      rw [← Except.ok.inj h] at hr
      exact ⟨r, hr, rfl, rfl, rfl⟩
    · rw [if_neg h2] at h
      by_cases h3 : (interpKnownPairs rows).length ≤ 2
      · rw [if_pos h3] at h
        simp at h
      · rw [if_neg h3] at h
        rw [← Except.ok.inj h] at hr
        obtain ⟨p, hp, hval⟩ := List.mem_map.mp hr
        refine ⟨p.2, mem_enum_snd hp, ?_⟩
        by_cases hc1 : p.2.tsl.isSome = true
        · rw [if_pos hc1] at hval
          rw [← hval]
          exact ⟨rfl, rfl, rfl⟩
        · rw [if_neg hc1] at hval
          by_cases hc2 : ((interpKnownPairs rows).any fun q => decide (q.1 < p.1 + 1)) = true
          · rw [if_pos hc2] at hval
            rw [← hval]
            exact ⟨rfl, rfl, rfl⟩
          · rw [if_neg hc2] at hval
            rw [← hval]
            exact ⟨rfl, rfl, rfl⟩

theorem runResultCalculations_ok {fill : List (ℕ × ℚ) → ℕ → ℚ} {hq : Bool}
    {rows out : List TRow} (h : runResultCalculations fill hq rows = Except.ok out) :
    ∃ mid : List TRow,
      interpolateTSLRace fill (calcRacePosition (calcStartingPosition hq rows)) =
        Except.ok mid ∧ out = calcLapPositions mid := by
  rw [runResultCalculations] at h
  cases hI : interpolateTSLRace fill (calcRacePosition (calcStartingPosition hq rows)) with
  | error e =>
    rw [hI] at h
    simp [Except.map] at h
  | ok mid =>
    rw [hI] at h
    simp only [Except.map] at h
    exact ⟨mid, rfl, (Except.ok.inj h).symm⟩

theorem mem_calcLapPositions {rows : List TRow} {r : TRow}
    (h : r ∈ calcLapPositions rows) :
    ∃ r0 ∈ rows, r.startPos = r0.startPos ∧ r.endPos = r0.endPos ∧
      r.lapTimes = r0.lapTimes ∧ (r0.lapTimes = none → r.lapPositions = none) := by
  rw [calcLapPositions] at h
  obtain ⟨p, hp, hval⟩ := List.mem_map.mp h
  refine ⟨p.2, mem_enum_snd hp, ?_⟩
  by_cases hsome : p.2.lapTimes.isSome = true
  · rw [if_pos hsome] at hval
    rw [← hval]
    refine ⟨rfl, rfl, rfl, ?_⟩
    intro hnone
    rw [hnone] at hsome
    simp at hsome
  · rw [if_neg hsome] at hval
    rw [← hval]
    exact ⟨rfl, rfl, rfl, fun _ => rfl⟩

/-! ## Lemmas: trailing laps of lapped drivers -/

theorem drop_range' (m : ℕ) : ∀ (s n : ℕ), (List.range' s n).drop m = List.range' (s + m) (n - m) := by
  induction m with
  | zero =>
    intro s n
    rw [List.drop_zero, Nat.add_zero, Nat.sub_zero]
  | succ m ih =>
    intro s n
    cases n with
    | zero =>
      rw [Nat.zero_sub]
      rfl
    | succ n2 =>
      have hcons : List.range' s (n2 + 1) = s :: List.range' (s + 1) n2 := rfl
      rw [hcons]
      have hd : (s :: List.range' (s + 1) n2).drop (m + 1) = (List.range' (s + 1) n2).drop m := rfl
      rw [hd, ih (s + 1) n2]
      have h1 : s + 1 + m = s + (m + 1) := by omega
      have h2 : n2 - m = n2 + 1 - (m + 1) := by omega
      rw [h1, h2]

theorem firstSome_singleton (a : Option ℕ) : firstSome [a] = a := by
  cases a <;> rfl

theorem lapPositionsOf_trailing (rows : List TRow) (i : ℕ) (r : TRow) (l : List ℚ)
    (k : ℕ) (hget : rows[i]? = some r) (hl : r.lapTimes = some l)
    (hk1 : l.length < k) (hk2 : k ≤ maxLaps rows) :
    (lapPositionsOf rows i r)[k]? = some r.endPos := by
  have hsome : r.lapTimes.isSome = true := by rw [hl]; rfl
  have hL : maxLaps rows ≠ 0 := by omega
  have hk0 : 1 ≤ k := by omega
  have hlen : k < (tableRow rows i r).length := by
    rw [tableRow_length rows i r hL]
    omega
  rw [lapPositionsOf, bfill_getElem? _ k hlen]
  have htb : tableRow rows i r =
      r.startPos :: ((List.range' 1 (maxLaps rows - 1)).map (fun j => rankAt rows j i)
        ++ [r.endPos]) := by
    rw [tableRow, if_neg hL]
  rw [htb]
  have hdropcons : (r.startPos :: ((List.range' 1 (maxLaps rows - 1)).map
        (fun j => rankAt rows j i) ++ [r.endPos])).drop k =
      ((List.range' 1 (maxLaps rows - 1)).map (fun j => rankAt rows j i)
        ++ [r.endPos]).drop (k - 1) := by
    cases k with
    | zero => omega
    | succ k2 =>
      have : k2 + 1 - 1 = k2 := by omega
      rw [this]
      rfl
  rw [hdropcons]
  have hklen : k - 1 ≤ ((List.range' 1 (maxLaps rows - 1)).map (fun j => rankAt rows j i)).length := by
    rw [List.length_map, List.length_range']
    omega
  rw [List.drop_append_of_le_length hklen, ← List.map_drop, drop_range']
  have hforall : ∀ x ∈ (List.range' (1 + (k - 1)) (maxLaps rows - 1 - (k - 1))).map
      (fun j => rankAt rows j i), x = none := by
    intro x hx
    obtain ⟨j, hj, hxj⟩ := List.mem_map.mp hx
    have hjge : 1 + (k - 1) ≤ j := (List.mem_range'_1.mp hj).1
    have hjk : l.length < j := by omega
    rw [← hxj]
    exact rankAt_eq_none hget hsome (cumAt_eq_none_of_lt hl hjk)
  rw [firstSome_append_of_forall_none hforall, firstSome_singleton]

/-! ## The claims -/

/-- C10: for every raw result record whose finishTime is exactly zero (or
null, the other falsy value), the derived time_until_starting_line is
undefined, i.e. a zero finish time is treated identically to an absent
finish time and never as a valid duration. -/
theorem finishTime_zero_means_undefined_tsl (res : RawResult)
    (h : res.finishTime = some 0 ∨ res.finishTime = none) :
    timeUntilStartingLine res = none := by
  rcases h with h | h <;> simp [timeUntilStartingLine, h]

/-- Witness for C10 at the record exC10zero with finishTime exactly 0. -/
theorem finishTime_zero_means_undefined_tsl_witness :
    (exC10zero.finishTime = some 0 ∨ exC10zero.finishTime = none)
    ∧ timeUntilStartingLine exC10zero = none :=
  ⟨Or.inl rfl, finishTime_zero_means_undefined_tsl exC10zero (Or.inl rfl)⟩

/-- C6: at the failing input exC6 the interpolation step reindexes the
time_until_starting_line_race column by the current row order, which after
__calc_race_position is final-classification order, not starting-grid
order: x-index 1 is handed to driver B whose starting position is 2, so
the known pairs built for the spline are [(1, 15), (2, 2)] although the
grid order the comment and the spec assume would give [(1, 2), (2, 15)].
With only two known start-line times the spline fit itself then raises
(scipy requires more known points than the order 2), so at this input the
pipeline aborts in the interpolation step right after building the wrong
pairs. -/
theorem interpolation_reindex_is_classification_order :
    exC6sorted.map (fun r => (r.name, r.startPos, r.endPos)) =
      [("B", some 2, some 1), ("A", some 1, some 2), ("C", some 3, some 3)]
    ∧ interpKnownPairs exC6sorted = [(1, 15), (2, 2)]
    ∧ interpolateTSLRace fill0 exC6sorted =
        Except.error ("dfitpack error: m > k must hold in UnivariateSpline") := by
  refine ⟨by decide, by decide, rfl⟩

/-- C3: without qualifying data the starting positions rank the drivers
1..N ascending by time_until_starting_line_race (missing values last), with
no ties: the stable sort keeps the current order on exact equality
(first-seen wins, the pairwise statement over the tagged sort).  On the
spec example the result is B:1, A:2, C:3.  With qualifying data the rank
is ascending by the pair (fastest_lap_time_quali,
time_until_starting_line_race). -/
theorem starting_position_ranking :
    ((calcStartingPosition false exC3).map (fun r => (r.name, r.startPos)) =
      [("B", some 1), ("A", some 2), ("C", some 3)])
    ∧ (∀ rows : List TRow, ∀ i j : ℕ, ∀ ri rj : TRow,
        (calcStartingPosition false rows)[i]? = some ri →
        (calcStartingPosition false rows)[j]? = some rj →
        ltStartNoQ ri rj = true → i < j)
    ∧ (∀ hq : Bool, ∀ rows : List TRow, ∀ i : ℕ, ∀ ri : TRow,
        (calcStartingPosition hq rows)[i]? = some ri → ri.startPos = some (i + 1))
    ∧ (∀ rows : List TRow,
        (sortTagged ltStartNoQ rows).Pairwise (fun p q => p.2.tsl = q.2.tsl → p.1 < q.1))
    ∧ (∀ rows : List TRow, ∀ i j : ℕ, ∀ ri rj : TRow,
        (calcStartingPosition true rows)[i]? = some ri →
        (calcStartingPosition true rows)[j]? = some rj →
        ltStartQ ri rj = true → i < j) := by
  refine ⟨by decide, ?_, ?_, ?_, ?_⟩
  · intro rows i j ri rj hi hj hlt
    exact calcStartingPosition_lt_index false rows i j ri rj hi hj hlt
  · intro hq rows i ri hi
    exact calcStartingPosition_startPos_getElem? hq rows i ri hi
  · intro rows
    refine (sortTagged_stable ltStartNoQ_swo rows).imp ?_
    intro p q hpq heq
    have h1 : ltStartNoQ p.2 q.2 = false := by
      show ltOptQ p.2.tsl q.2.tsl = false
      rw [heq]
      exact ltOptQ_swo.irrefl _
    have h2 : ltStartNoQ q.2 p.2 = false := by
      show ltOptQ q.2.tsl p.2.tsl = false
      rw [heq]
      exact ltOptQ_swo.irrefl _
    exact hpq h1 h2
  · intro rows i j ri rj hi hj hlt
    exact calcStartingPosition_lt_index true rows i j ri rj hi hj hlt

/-- Witness for C3: on the example table, driver B (start-line time 0.5)
is ranked strictly before driver A (start-line time 1.0), and B holds
starting position 1. -/
theorem starting_position_ranking_witness :
    (0 : ℕ) < 1 ∧ exC3rowB.startPos = some (0 + 1) :=
  ⟨starting_position_ranking.2.1 exC3 0 1 exC3rowB exC3rowA (by decide) (by decide) (by decide),
   starting_position_ranking.2.2.1 false exC3 0 exC3rowB (by decide)⟩

/-- C4: end positions rank the drivers by laps driven descending, then
total time ascending, then starting position ascending (the strict
lexicographic comparator ltRace), positions are assigned 1..N in the
sorted order, and after the two position steps both starting_position_race
and end_position_race are exactly the values 1..N (a permutation, with the
end positions literally 1..N in the final row order).  On the spec example
the ten-lap driver A beats the eight-lap driver B regardless of timing. -/
theorem race_position_ranking :
    ((calcRacePosition (calcStartingPosition false exC4)).map (fun r => (r.name, r.endPos)) =
      [("A", some 1), ("B", some 2)])
    ∧ (∀ hq : Bool, ∀ rows : List TRow,
        List.Perm ((calcRacePosition (calcStartingPosition hq rows)).map (fun r => r.startPos))
          ((List.range' 1 rows.length).map some))
    ∧ (∀ hq : Bool, ∀ rows : List TRow,
        (calcRacePosition (calcStartingPosition hq rows)).map (fun r => r.endPos) =
          (List.range' 1 rows.length).map some)
    ∧ (∀ rows : List TRow, ∀ i j : ℕ, ∀ ri rj : TRow,
        (calcRacePosition rows)[i]? = some ri → (calcRacePosition rows)[j]? = some rj →
        ltRace ri rj = true → i < j)
    ∧ (∀ rows : List TRow, ∀ i : ℕ, ∀ ri : TRow,
        (calcRacePosition rows)[i]? = some ri → ri.endPos = some (i + 1)) := by
  refine ⟨by decide, ?_, ?_, ?_, ?_⟩
  · intro hq rows
    have h := calcRacePosition_map_startPos_perm (calcStartingPosition hq rows)
    rw [calcStartingPosition_map_startPos hq rows] at h
    exact h
  · intro hq rows
    rw [calcRacePosition_map_endPos, calcStartingPosition_length]
  · intro rows i j ri rj hi hj hlt
    exact calcRacePosition_lt_index rows i j ri rj hi hj hlt
  · intro rows i ri hi
    exact calcRacePosition_endPos_getElem? rows i ri hi

/-- Witness for C4: on the example table, the ten-lap driver A is ranked
strictly before the eight-lap driver B, and B holds end position 2. -/
theorem race_position_ranking_witness :
    (0 : ℕ) < 1 ∧ exC4rowB.endPos = some (1 + 1) :=
  ⟨race_position_ranking.2.2.2.1 exC4pre 0 1 exC4rowA exC4rowB (by decide) (by decide) (by decide),
   race_position_ranking.2.2.2.2 exC4pre 1 exC4rowB (by decide)⟩

/-- C1 counterexample: on the two-driver two-lap race exC1 every
start-line time is known, so the interpolation step returns the rows
unchanged and the full pipeline succeeds; the stored lap_positions_race of
driver A then has length maxLaps + 1 = 3, not the race lap count
maxLaps = 2: the starting-grid slot is prepended as an extra leading
entry. -/
theorem lap_positions_length_cex :
    runResultCalculations fill0 false exC1 = Except.ok (calcLapPositions exC1sorted)
    ∧ (calcLapPositions exC1sorted)[0]? =
      some { exC1rowA with lapPositions := some (lapPositionsOf exC1sorted 0 exC1rowA) }
    ∧ (lapPositionsOf exC1sorted 0 exC1rowA).length = 3
    ∧ maxLaps exC1sorted = 2
    ∧ ¬ (lapPositionsOf exC1sorted 0 exC1rowA).length = maxLaps exC1sorted := by
  have hget : exC1sorted[0]? = some exC1rowA := by decide
  have hmax : maxLaps exC1sorted = 2 := by decide
  have hlen : (lapPositionsOf exC1sorted 0 exC1rowA).length = maxLaps exC1sorted + 1 :=
    lapPositionsOf_length exC1sorted 0 exC1rowA (by rw [hmax]; omega)
  refine ⟨rfl, ?_, ?_, hmax, ?_⟩
  · exact calcLapPositions_getElem?_of_some exC1sorted 0 exC1rowA hget rfl
  · rw [hlen, hmax]
  · rw [hlen, hmax]
    omega

/-- C1 amended: for every driver with at least one recorded race lap the
stored lap_positions_race has length equal to the race lap count plus one
(the starting-grid slot is the extra leading entry) and, with the end
position the pipeline always assigns, contains no missing entry. -/
theorem lap_positions_length_and_no_nulls (rows : List TRow) (i : ℕ) (r : TRow)
    (l : List ℚ) (e : ℕ) (hget : rows[i]? = some r) (hl : r.lapTimes = some l)
    (hne : l ≠ []) (he : r.endPos = some e) :
    (calcLapPositions rows)[i]? = some { r with lapPositions := some (lapPositionsOf rows i r) }
    ∧ (lapPositionsOf rows i r).length = maxLaps rows + 1
    ∧ ∀ x ∈ lapPositionsOf rows i r, x.isSome = true := by
  have hsome : r.lapTimes.isSome = true := by rw [hl]; rfl
  have hL : maxLaps rows ≠ 0 := by
    have := maxLaps_pos hget hl hne
    omega
  exact ⟨calcLapPositions_getElem?_of_some rows i r hget hsome,
    lapPositionsOf_length rows i r hL, lapPositionsOf_isSome rows i r hL he⟩

/-- Witness for the amended C1 at the two-driver witness table. -/
theorem lap_positions_length_and_no_nulls_witness :
    (calcLapPositions wRows)[0]? =
      some { wRowA with lapPositions := some (lapPositionsOf wRows 0 wRowA) }
    ∧ (lapPositionsOf wRows 0 wRowA).length = maxLaps wRows + 1
    ∧ ∀ x ∈ lapPositionsOf wRows 0 wRowA, x.isSome = true :=
  lap_positions_length_and_no_nulls wRows 0 wRowA [50, 50] 1 (by decide) rfl (by decide) rfl

/-- C2: for every driver with at least one recorded race lap, the last
element of the stored lap_positions_race equals end_position_race: line
234 overwrites the last rank column with the authoritative classification
before the lists are stored, so the authoritative value always wins
whatever the time-based rank of the last lap was. -/
theorem lap_positions_last_eq_end_position (rows : List TRow) (i : ℕ) (r : TRow)
    (l : List ℚ) (hget : rows[i]? = some r) (hl : r.lapTimes = some l) (hne : l ≠ []) :
    (calcLapPositions rows)[i]? = some { r with lapPositions := some (lapPositionsOf rows i r) }
    ∧ (lapPositionsOf rows i r).getLast? = some r.endPos := by
  have hsome : r.lapTimes.isSome = true := by rw [hl]; rfl
  have hL : maxLaps rows ≠ 0 := by
    have := maxLaps_pos hget hl hne
    omega
  exact ⟨calcLapPositions_getElem?_of_some rows i r hget hsome,
    lapPositionsOf_getLast? rows i r hL⟩

/-- Witness for C2 at the lapped driver B of the witness table. -/
theorem lap_positions_last_eq_end_position_witness :
    (calcLapPositions wRows)[1]? =
      some { wRowB with lapPositions := some (lapPositionsOf wRows 1 wRowB) }
    ∧ (lapPositionsOf wRows 1 wRowB).getLast? = some wRowB.endPos :=
  lap_positions_last_eq_end_position wRows 1 wRowB [52] (by decide) rfl (by decide)

/-- C5: for a lapped driver every lap index beyond the last completed lap
stores the final position: those rank cells are missing and the back-fill
propagates the forced end-position value of the last column into them. -/
theorem lap_positions_trailing_laps (rows : List TRow) (i : ℕ) (r : TRow)
    (l : List ℚ) (k : ℕ) (hget : rows[i]? = some r) (hl : r.lapTimes = some l)
    (hne : l ≠ []) (hk1 : l.length < k) (hk2 : k ≤ maxLaps rows) :
    (calcLapPositions rows)[i]? = some { r with lapPositions := some (lapPositionsOf rows i r) }
    ∧ (lapPositionsOf rows i r)[k]? = some r.endPos := by
  have hsome : r.lapTimes.isSome = true := by rw [hl]; rfl
  exact ⟨calcLapPositions_getElem?_of_some rows i r hget hsome,
    lapPositionsOf_trailing rows i r l k hget hl hk1 hk2⟩

/-- Witness for C5: driver B completed one of the two laps; at lap 2 the
stored value is its end position. -/
theorem lap_positions_trailing_laps_witness :
    (calcLapPositions wRows)[1]? =
      some { wRowB with lapPositions := some (lapPositionsOf wRows 1 wRowB) }
    ∧ (lapPositionsOf wRows 1 wRowB)[2]? = some wRowB.endPos :=
  lap_positions_trailing_laps wRows 1 wRowB [52] 2 (by decide) rfl (by decide)
    (by decide) (by decide)

/-- C9: for every driver included in the lap-position computation the first
stored element is the starting position: the starting_position_race column
is the first column of df_lap_table and survives the back-fill unchanged. -/
theorem lap_positions_head_eq_starting_position (rows : List TRow) (i : ℕ) (r : TRow)
    (s : ℕ) (hget : rows[i]? = some r) (hsome : r.lapTimes.isSome = true)
    (hs : r.startPos = some s) :
    (calcLapPositions rows)[i]? = some { r with lapPositions := some (lapPositionsOf rows i r) }
    ∧ (lapPositionsOf rows i r)[0]? = some (some s) :=
  ⟨calcLapPositions_getElem?_of_some rows i r hget hsome,
    lapPositionsOf_head rows i r hs⟩

/-- Witness for C9 at driver A of the witness table. -/
theorem lap_positions_head_eq_starting_position_witness :
    (calcLapPositions wRows)[0]? =
      some { wRowA with lapPositions := some (lapPositionsOf wRows 0 wRowA) }
    ∧ (lapPositionsOf wRows 0 wRowA)[0]? = some (some 1) :=
  lap_positions_head_eq_starting_position wRows 0 wRowA 1 (by decide) rfl rfl

/-- C8 counterexample: driver E of exC8 has zero recorded laps but a
present (empty) lap_times list, so the isna filter keeps it.  Three other
drivers have known start-line times, hence the spline fit succeeds and the
real pipeline reaches the lap-position step; for every possible spline
evaluation (the filled value of E cannot change this), driver E receives
the defined lap_positions_race [4, 4, 4] instead of none. -/
theorem zero_lap_driver_not_excluded_cex :
    exC8rowE.lapTimes = some []
    ∧ ∀ fill : List (ℕ × ℚ) → ℕ → ℚ,
        runResultCalculations fill false exC8 = Except.ok (calcLapPositions (exC8mid fill))
        ∧ (calcLapPositions (exC8mid fill))[3]? =
            some { exC8rowE with
              tsl := some (fill exC8known 4),
              lapPositions := some [some 4, some 4, some 4] } := by
  refine ⟨rfl, ?_⟩
  intro fill
  have hget : (exC8mid fill)[3]? = some { exC8rowE with tsl := some (fill exC8known 4) } := rfl
  have hmax : maxLaps (exC8mid fill) = 2 := rfl
  have hcum : cumAt { exC8rowE with tsl := some (fill exC8known 4) } 1 = none :=
    cumAt_eq_none_of_lt (l := []) rfl (by decide)
  have hrank : rankAt (exC8mid fill) 1 3 = none := rankAt_eq_none hget rfl hcum
  have htable : tableRow (exC8mid fill) 3 { exC8rowE with tsl := some (fill exC8known 4) } =
      [some 4, rankAt (exC8mid fill) 1 3, some 4] := by
    rw [tableRow, hmax]
    rfl
  have hlist : lapPositionsOf (exC8mid fill) 3 { exC8rowE with tsl := some (fill exC8known 4) } =
      [some 4, some 4, some 4] := by
    rw [lapPositionsOf, htable, hrank]
    rfl
  refine ⟨rfl, ?_⟩
  have hcalc := calcLapPositions_getElem?_of_some (exC8mid fill) 3
    { exC8rowE with tsl := some (fill exC8known 4) } hget rfl
  rw [hcalc, hlist]

/-- C8 amended: only a null lap_times cell (NaN) excludes a driver from
the lap-position computation, and such a driver keeps an undefined
lap_positions_race; the pipeline still assigns every driver a starting and
an end position.  A present-but-empty lap list does not exclude. -/
theorem null_lap_times_excluded :
    (∀ rows : List TRow, ∀ i : ℕ, ∀ r : TRow, rows[i]? = some r → r.lapTimes = none →
        (calcLapPositions rows)[i]? = some { r with lapPositions := none })
    ∧ (∀ fill : List (ℕ × ℚ) → ℕ → ℚ, ∀ hq : Bool, ∀ rows out : List TRow,
        runResultCalculations fill hq rows = Except.ok out →
        ∀ r ∈ out,
          r.startPos.isSome = true ∧ r.endPos.isSome = true ∧
            (r.lapTimes = none → r.lapPositions = none)) := by
  refine ⟨?_, ?_⟩
  · intro rows i r hget hnone
    exact calcLapPositions_getElem?_of_none rows i r hget hnone
  · intro fill hq rows out hrun r hr
    obtain ⟨mid, hI, hout⟩ := runResultCalculations_ok hrun
    rw [hout] at hr
    obtain ⟨r0, hr0, hstart, hend, hlap, hnull⟩ := mem_calcLapPositions hr
    obtain ⟨r1, hr1, hstart1, hend1, hlap1⟩ := mem_interpolateTSLRace hI hr0
    obtain ⟨n, r2, hr2, hval2⟩ := mem_calcRacePosition hr1
    obtain ⟨m, r3, hr3, hval3⟩ := mem_calcStartingPosition hr2
    refine ⟨?_, ?_, ?_⟩
    · rw [hstart, hstart1, hval2, hval3]
      rfl
    · rw [hend, hend1, hval2]
      rfl
    · intro hnone
      refine hnull ?_
      rw [← hlap]
      exact hnone

/-- Witness for the amended C8: the null-lap-times driver of wRows2 keeps
an undefined lap_positions_race; the single null-lap-times driver of
wNullOnly still obtains starting and end positions from the pipeline
(whose interpolation step leaves its all-missing start-line column
untouched). -/
theorem null_lap_times_excluded_witness :
    (calcLapPositions wRows2)[1]? = some { wNullRow with lapPositions := none }
    ∧ (wNullOut.startPos.isSome = true ∧ wNullOut.endPos.isSome = true ∧
        (wNullOut.lapTimes = none → wNullOut.lapPositions = none)) :=
  ⟨null_lap_times_excluded.1 wRows2 1 wNullRow (by decide) rfl,
   null_lap_times_excluded.2 fill0 false wNullOnly [wNullOut] rfl wNullOut
     (List.mem_singleton.mpr rfl)⟩

end CsupAnalyzer
